import Mathlib

/-!
Shallow embedding of the bingo-spinner widget
(src/bingo_spinner_with_text_to_speech_teacher_voice_saver.jsx).

The spin engine works with JavaScript numbers; every rotation quantity the
code manipulates is a rational combination of `360 / n` values, so the
embedding uses `ℚ` with an explicit model of the JavaScript `%` operator
(truncated remainder, sign of the dividend).

Rendering, speech synthesis, fullscreen and the voice controls are external
collaborators and are not modelled; the state the claims speak about
(rawList, items, history, rotation, isSpinning, spinCount, selectedIndex,
removeOnPick) is carried in `SpinnerState`.
-/

namespace BingoSpinner

/-- Truncation toward zero, the rounding JavaScript division uses inside the
`%` operator: floor for nonnegative arguments, ceiling for negative ones. -/
def jsTrunc (x : ℚ) : ℤ := if 0 ≤ x then ⌊x⌋ else ⌈x⌉

/-- The JavaScript remainder operator `x % y`: `x - y * trunc (x / y)`.
The result has the sign of `x` and magnitude below `|y|`. -/
def jsMod (x y : ℚ) : ℚ := x - y * jsTrunc (x / y)

/-- `((x % 360) + 360) % 360`, the normalization to `[0, 360)` used at
line 143 of the source (`const current = ((rotation % 360) + 360) % 360`). -/
def normMod360 (x : ℚ) : ℚ := jsMod (jsMod x 360 + 360) 360

/-- Line 57: `const sliceAngle = items.length > 0 ? 360 / items.length : 0`. -/
def sliceAngle (items : List String) : ℚ :=
  if 0 < items.length then 360 / (items.length : ℚ) else 0

/-- Line 139: `const centerAngle = idx * sliceAngle + sliceAngle / 2`. -/
def centerAngle (items : List String) (idx : ℕ) : ℚ :=
  (idx : ℚ) * sliceAngle items + sliceAngle items / 2

/-- Line 144: `const deltaToZero = (360 - ((centerAngle + current) % 360)) % 360`,
with `current = ((rotation % 360) + 360) % 360` from line 143. -/
def deltaToZero (items : List String) (idx : ℕ) (rotation : ℚ) : ℚ :=
  jsMod (360 - jsMod (centerAngle items idx + normMod360 rotation) 360) 360

/-- Line 145: `const target = rotation + extraSpins * 360 + deltaToZero`.
`extraSpins` is the value `6 + Math.floor(Math.random() * 4)` drawn at
line 142; it enters as a parameter. -/
def spinTarget (items : List String) (idx extraSpins : ℕ) (rotation : ℚ) : ℚ :=
  rotation + (extraSpins : ℚ) * 360 + deltaToZero items idx rotation

/-! ### List parsing (lines 16–21 / 66–70 / 80–86)

The source derives the pool from the textarea text by
`raw.split(/\r?\n/).map(s => s.trim()).filter(Boolean)`.  `String.splitOn`
and `String.trim` from core Lean are not kernel-reducible, so the same
pipeline is implemented here over `List Char` by structural recursion:
splitting on `'\n'` and then trimming also removes a `'\r'` left at a line
end, which is exactly what the `/\r?\n/` regex followed by `trim` does. -/

/-- Split a character list on newline characters (the `/\r?\n/` separators of
the source; a trailing `'\r'` before the `'\n'` is removed by `trim` below). -/
def splitLines : List Char → List (List Char)
  | [] => [[]]
  | c :: rest =>
    if c = '\n' then [] :: splitLines rest
    else
      match splitLines rest with
      | [] => [[c]]
      | l :: ls => (c :: l) :: ls

/-- JavaScript `String.prototype.trim`: drop leading and trailing whitespace. -/
def trim (cs : List Char) : List Char :=
  ((cs.dropWhile Char.isWhitespace).reverse.dropWhile Char.isWhitespace).reverse

/-- `raw.split(/\r?\n/).map(s => s.trim()).filter(Boolean)`: the list derived
from a raw text (newline split, per-item trim, empty entries dropped). -/
def deriveList (raw : String) : List String :=
  ((splitLines raw.data).map (fun cs => String.mk (trim cs))).filter
    (fun s => s ≠ "")

/-! ### Component state (lines 15–29) -/

/-- The session state the claims are about: the textarea text `rawList`, the
pool `items`, the history log, the remove-after-pick and auto-speak policies,
the selected index, the spinning flag, the cumulative rotation and the spin
counter (lines 15–29 of the source). -/
structure SpinnerState where
  rawList : String
  items : List String
  history : List String
  removeOnPick : Bool
  autoSpeak : Bool
  selectedIndex : Option ℕ
  isSpinning : Bool
  rotation : ℚ
  spinCount : ℕ
deriving DecidableEq

/-- Lines 66–78, `applyList`: derive the list from the raw text; when it is
non-empty, replace the pool and clear history, selection, rotation and the
spin counter.  When the derived list is empty nothing happens.  Note that
`isSpinning` is not touched. -/
def applyList (s : SpinnerState) : SpinnerState :=
  let list := deriveList s.rawList
  if 0 < list.length then
    { s with items := list, history := [], selectedIndex := none,
             rotation := 0, spinCount := 0 }
  else s

/-- Lines 80–91, `resetList`: unconditionally re-derive the pool from the
current raw text and clear history, selection, rotation and the spin
counter. -/
def resetList (s : SpinnerState) : SpinnerState :=
  { s with items := deriveList s.rawList, history := [], selectedIndex := none,
           rotation := 0, spinCount := 0 }

/-- Line 327: the textarea `onChange` handler stores the edited text in
`rawList` and changes nothing else. -/
def setRawList (s : SpinnerState) (t : String) : SpinnerState :=
  { s with rawList := t }

/-- Lines 94–107: the classic-bingo enumeration `out`: for each of the five
letters B, I, N, G, O, the labels letter-concatenated with each number of the
matching range `[1,15], [16,30], [31,45], [46,60], [61,75]`. -/
def bingoLetters : List String := ["B", "I", "N", "G", "O"]

/-- The `ranges` array of lines 96–102. -/
def bingoRanges : List (ℕ × ℕ) := [(1, 15), (16, 30), (31, 45), (46, 60), (61, 75)]

/-- The list `out` built by the loops of lines 103–107:
`for i in [0,5), for n in [ranges[i].1, ranges[i].2], push letters[i] ++ n`. -/
def classicBingoList : List String :=
  (List.range 5).flatMap (fun i =>
    let r := bingoRanges.getD i (0, 0)
    (List.range' r.1 (r.2 + 1 - r.1)).map
      (fun n => bingoLetters.getD i "" ++ toString n))

/-- Lines 94–115, `setClassicBingo`: store the newline-joined labels as the
raw text, make the labels the pool, and clear history, selection, rotation
and the spin counter.  As in `applyList`, `isSpinning` is not touched. -/
def setClassicBingo (s : SpinnerState) : SpinnerState :=
  { s with rawList := String.intercalate "\n" classicBingoList,
           items := classicBingoList, history := [], selectedIndex := none,
           rotation := 0, spinCount := 0 }

/-- The data the `setTimeout` closure of lines 153–161 captures at spin-request
time: the chosen index, the pool as it was at the request, and the
remove-after-pick flag as it was at the request. -/
structure PendingSpin where
  idx : ℕ
  capturedItems : List String
  capturedRemoveOnPick : Bool
deriving DecidableEq

/-- Lines 133–149, the synchronous part of `handleSpin`: when the pool is
empty or a spin is in flight, return the state unchanged and schedule nothing
(`if (items.length === 0 || isSpinning) return`).  Otherwise record the chosen
index, compute the rotation target, set the spinning flag, bump the spin
counter, store the target rotation, and schedule the completion callback with
the captured data.  The randomly drawn `idx` and `extraSpins` enter as
parameters. -/
def spinRequest (s : SpinnerState) (idx extraSpins : ℕ) :
    SpinnerState × Option PendingSpin :=
  if s.items.length = 0 ∨ s.isSpinning = true then (s, none)
  else
    ({ s with selectedIndex := some idx, isSpinning := true,
              spinCount := s.spinCount + 1,
              rotation := spinTarget s.items idx extraSpins s.rotation },
     some ⟨idx, s.items, s.removeOnPick⟩)

/-- `prev.filter((_, i) => i !== idx)` from line 159: keep the elements whose
position differs from `idx`. -/
def removeAtFilter (l : List String) (idx : ℕ) : List String :=
  (l.enum.filter (fun p => p.1 ≠ idx)).map Prod.snd

/-- Lines 153–161, the `setTimeout` callback: clear the spinning flag, prepend
the picked item (`picked = items[idx]` over the captured pool) to the history,
and, when the captured remove-after-pick flag is set, remove the element at
the captured index from the current pool.  Speech (`speak(picked)`) is an
external effect and is not part of the state. -/
def spinComplete (s : SpinnerState) (p : PendingSpin) : SpinnerState :=
  let picked := p.capturedItems.getD p.idx ""
  let s1 := { s with isSpinning := false, history := picked :: s.history }
  if p.capturedRemoveOnPick then
    { s1 with items := removeAtFilter s.items p.idx }
  else s1

/-! ## Arithmetic facts about the JavaScript remainder -/

/-- `jsMod x y` differs from `x` by an integer multiple of `y`. -/
lemma jsMod_decomp (x y : ℚ) : ∃ k : ℤ, jsMod x y = x - y * k :=
  ⟨jsTrunc (x / y), rfl⟩

/-- For a nonnegative dividend and positive divisor, `jsMod` is the canonical
representative `y * fract (x / y)`. -/
lemma jsMod_nonneg_eq (x y : ℚ) (hx : 0 ≤ x) (hy : 0 < y) :
    jsMod x y = y * Int.fract (x / y) := by
  have hq : 0 ≤ x / y := div_nonneg hx hy.le
  rw [jsMod, jsTrunc, if_pos hq, Int.fract]
  field_simp

/-- Range of `jsMod` for a nonnegative dividend: `[0, y)`. -/
lemma jsMod_nonneg_bounds (x y : ℚ) (hx : 0 ≤ x) (hy : 0 < y) :
    0 ≤ jsMod x y ∧ jsMod x y < y := by
  rw [jsMod_nonneg_eq x y hx hy]
  refine ⟨mul_nonneg hy.le (Int.fract_nonneg _), ?_⟩
  calc y * Int.fract (x / y) < y * 1 :=
        mul_lt_mul_of_pos_left (Int.fract_lt_one _) hy
    _ = y := mul_one y

/-- For a positive divisor, `jsMod` always exceeds `-y` (it lies in `(-y, y)`). -/
lemma jsMod_gt_neg (x y : ℚ) (hy : 0 < y) : -y < jsMod x y := by
  rcases le_or_lt 0 x with hx | hx
  · have h := (jsMod_nonneg_bounds x y hx hy).1
    linarith
  · have hq : ¬ (0 ≤ x / y) := by
      rw [not_le]
      exact div_neg_of_neg_of_pos hx hy
    rw [jsMod, jsTrunc, if_neg hq]
    have hc : (⌈x / y⌉ : ℚ) < x / y + 1 := Int.ceil_lt_add_one _
    have h1 : y * (⌈x / y⌉ : ℚ) < y * (x / y + 1) :=
      mul_lt_mul_of_pos_left hc hy
    have h2 : y * (x / y) = x := by field_simp
    rw [mul_add, mul_one] at h1
    linarith

/-- The double-remainder normalization of line 143 is the canonical
representative of `x` modulo 360 in `[0, 360)`. -/
lemma normMod360_eq_fract (x : ℚ) : normMod360 x = 360 * Int.fract (x / 360) := by
  have h1 : -360 < jsMod x 360 := jsMod_gt_neg x 360 (by norm_num)
  have hw : 0 ≤ jsMod x 360 + 360 := by linarith
  rw [normMod360, jsMod_nonneg_eq _ 360 hw (by norm_num)]
  congr 1
  obtain ⟨k, hk⟩ := jsMod_decomp x 360
  have he : (jsMod x 360 + 360) / 360 = x / 360 - ((k - 1 : ℤ) : ℚ) := by
    push_cast
    field_simp
    linarith
  rw [he, Int.fract_sub_int]

lemma normMod360_nonneg (x : ℚ) : 0 ≤ normMod360 x := by
  rw [normMod360_eq_fract]
  exact mul_nonneg (by norm_num) (Int.fract_nonneg _)

lemma normMod360_lt (x : ℚ) : normMod360 x < 360 := by
  rw [normMod360_eq_fract]
  calc (360 : ℚ) * Int.fract (x / 360) < 360 * 1 :=
        mul_lt_mul_of_pos_left (Int.fract_lt_one _) (by norm_num)
    _ = 360 := mul_one 360

/-- Two rotations that differ by a whole number of turns normalize equally. -/
lemma normMod360_congr (x y : ℚ) (k : ℤ) (h : x - y = 360 * k) :
    normMod360 x = normMod360 y := by
  rw [normMod360_eq_fract, normMod360_eq_fract]
  congr 1
  refine Int.fract_eq_fract.mpr ⟨k, ?_⟩
  have he : x / 360 - y / 360 = (x - y) / 360 := by ring
  rw [he, h]
  field_simp

lemma sliceAngle_nonneg (items : List String) : 0 ≤ sliceAngle items := by
  rw [sliceAngle]
  split
  · positivity
  · exact le_refl 0

lemma centerAngle_nonneg (items : List String) (idx : ℕ) :
    0 ≤ centerAngle items idx := by
  have h := sliceAngle_nonneg items
  rw [centerAngle]
  positivity

/-- The forward correction of line 144 is nonnegative. -/
lemma deltaToZero_nonneg (items : List String) (idx : ℕ) (r : ℚ) :
    0 ≤ deltaToZero items idx r := by
  have hc : 0 ≤ centerAngle items idx := centerAngle_nonneg items idx
  have hu : 0 ≤ normMod360 r := normMod360_nonneg r
  have hinner :=
    jsMod_nonneg_bounds (centerAngle items idx + normMod360 r) 360
      (by linarith) (by norm_num)
  have harg : 0 ≤ 360 - jsMod (centerAngle items idx + normMod360 r) 360 := by
    linarith [hinner.2]
  exact (jsMod_nonneg_bounds _ 360 harg (by norm_num)).1

/-- C1: for every pool of length at least 1, every selected index below the
pool length, every extra-revolution count in the drawn range `[6, 9]` and
every current cumulative rotation `r`, the spin target of lines 139–145
strictly exceeds `r`, and its residue modulo 360 (under the code's own
`((x % 360) + 360) % 360` normalization) equals the residue of
`360 - centerAngle`, independent of the magnitude of `r`. -/
theorem spinTarget_monotone_aligned (items : List String) (idx extraSpins : ℕ)
    (r : ℚ) (hn : 1 ≤ items.length) (hidx : idx < items.length)
    (hlo : 6 ≤ extraSpins) (hhi : extraSpins ≤ 9) :
    r < spinTarget items idx extraSpins r ∧
    normMod360 (spinTarget items idx extraSpins r) =
      normMod360 (360 - centerAngle items idx) := by
  have hd : 0 ≤ deltaToZero items idx r := deltaToZero_nonneg items idx r
  have hex : (6 : ℚ) ≤ (extraSpins : ℚ) := by exact_mod_cast hlo
  constructor
  · rw [spinTarget]
    nlinarith
  · obtain ⟨k0, hk0⟩ := jsMod_decomp r 360
    obtain ⟨k0b, hk0b⟩ := jsMod_decomp (jsMod r 360 + 360) 360
    have hu : normMod360 r = r - 360 * ((k0 + k0b - 1 : ℤ) : ℚ) := by
      rw [normMod360, hk0b, hk0]
      push_cast
      ring
    obtain ⟨k1, hk1⟩ :=
      jsMod_decomp (centerAngle items idx + normMod360 r) 360
    obtain ⟨k2, hk2⟩ :=
      jsMod_decomp (360 - jsMod (centerAngle items idx + normMod360 r) 360) 360
    apply normMod360_congr _ _ ((extraSpins : ℤ) + (k0 + k0b - 1) + k1 - k2)
    rw [spinTarget, deltaToZero, hk2, hk1, hu]
    push_cast
    ring

/-- Witness for C1 at the spec's own worked example: pool of two items,
index 1, six extra revolutions, zero prior rotation. -/
theorem spinTarget_monotone_aligned_witness :
    (0 : ℚ) < spinTarget ["A", "B"] 1 6 0 ∧
    normMod360 (spinTarget ["A", "B"] 1 6 0) =
      normMod360 (360 - centerAngle ["A", "B"] 1) :=
  spinTarget_monotone_aligned ["A", "B"] 1 6 0 (by decide) (by decide)
    (by decide) (by decide)

/-! ## The index filter of line 159 removes exactly one position -/

/-- Filtering an enumeration on an index below the enumeration's starting
index keeps every entry. -/
lemma enumFrom_filter_small (l : List String) :
    ∀ (n k : ℕ), k < n →
      ((List.enumFrom n l).filter (fun p => p.1 ≠ k)).map Prod.snd = l := by
  intro n k hk
  have hself : (List.enumFrom n l).filter (fun p => p.1 ≠ k) =
      List.enumFrom n l := by
    rw [List.filter_eq_self]
    rintro ⟨i, x⟩ ha
    have hb := List.mem_enumFrom ha
    simp only [decide_eq_true_eq, ne_eq]
    omega
  rw [hself, List.enumFrom_map_snd]

/-- Filtering the enumeration from `n` on index `n + idx` drops exactly the
element at position `idx`. -/
lemma enumFrom_filter_ne_map_snd (l : List String) :
    ∀ (n idx : ℕ),
      ((List.enumFrom n l).filter (fun p => p.1 ≠ n + idx)).map Prod.snd =
        l.eraseIdx idx := by
  induction l with
  | nil => intro n idx; rfl
  | cons a l ih =>
    intro n idx
    cases idx with
    | zero =>
      have h0 : ¬ ((fun p : ℕ × String => decide (p.1 ≠ n + 0)) (n, a) = true) := by
        simp
      rw [List.enumFrom, List.filter_cons, if_neg h0, List.eraseIdx]
      exact enumFrom_filter_small l (n + 1) (n + 0) (by omega)
    | succ j =>
      have h1 : (fun p : ℕ × String => decide (p.1 ≠ n + (j + 1))) (n, a) = true := by
        simp
      rw [List.enumFrom, List.filter_cons, if_pos h1, List.map_cons,
        List.eraseIdx]
      have he : n + (j + 1) = (n + 1) + j := by omega
      rw [he, ih (n + 1) j]

/-- `prev.filter((_, i) => i !== idx)` is order-preserving removal of the
element at position `idx`. -/
lemma removeAtFilter_eq_eraseIdx (l : List String) (idx : ℕ) :
    removeAtFilter l idx = l.eraseIdx idx := by
  have h := enumFrom_filter_ne_map_snd l 0 idx
  rw [Nat.zero_add] at h
  rw [removeAtFilter, List.enum_eq_enumFrom]
  exact h

/-- C2: an accepted spin followed by its completion callback puts the item
that sat at the selected index at request time at the front of the history,
increments the spin counter exactly once, and, when remove-after-pick is
enabled, replaces the pool by the request-time pool with exactly the selected
position removed (order preserved, length one less). -/
theorem spin_complete_effects (s : SpinnerState) (idx extraSpins : ℕ)
    (hne : s.items ≠ []) (hsp : s.isSpinning = false)
    (hidx : idx < s.items.length) :
    ∃ p : PendingSpin,
      (spinRequest s idx extraSpins).2 = some p ∧
      (spinComplete (spinRequest s idx extraSpins).1 p).history.head? =
        some (s.items.get ⟨idx, hidx⟩) ∧
      (spinComplete (spinRequest s idx extraSpins).1 p).spinCount =
        s.spinCount + 1 ∧
      (s.removeOnPick = true →
        (spinComplete (spinRequest s idx extraSpins).1 p).items =
          s.items.eraseIdx idx ∧
        (spinComplete (spinRequest s idx extraSpins).1 p).items.length + 1 =
          s.items.length) := by
  have hcond : ¬ (s.items.length = 0 ∨ s.isSpinning = true) := by
    simp [hsp, List.length_eq_zero]
    exact hne
  refine ⟨⟨idx, s.items, s.removeOnPick⟩, ?_, ?_⟩
  · rw [spinRequest, if_neg hcond]
  · rw [spinRequest, if_neg hcond]
    cases hrp : s.removeOnPick with
    | false =>
      simp [spinComplete, hrp, List.getElem?_eq_getElem hidx]
    | true =>
      simp [spinComplete, hrp, List.getElem?_eq_getElem hidx,
        removeAtFilter_eq_eraseIdx, List.length_eraseIdx, hidx]
      omega

/-- Witness for C2: remove-after-pick enabled over the spec's own example pool
`["X", "Y", "Z"]`, selecting index 1 ("Y"). -/
theorem spin_complete_effects_witness :
    ∃ p : PendingSpin,
      (spinRequest ⟨"X\nY\nZ", ["X", "Y", "Z"], [], true, true, none,
          false, 0, 0⟩ 1 6).2 = some p ∧
      (spinComplete (spinRequest ⟨"X\nY\nZ", ["X", "Y", "Z"], [], true, true,
          none, false, 0, 0⟩ 1 6).1 p).history.head? =
        some (["X", "Y", "Z"].get ⟨1, by decide⟩) ∧
      (spinComplete (spinRequest ⟨"X\nY\nZ", ["X", "Y", "Z"], [], true, true,
          none, false, 0, 0⟩ 1 6).1 p).spinCount = 0 + 1 ∧
      (true = true →
        (spinComplete (spinRequest ⟨"X\nY\nZ", ["X", "Y", "Z"], [], true, true,
            none, false, 0, 0⟩ 1 6).1 p).items =
          ["X", "Y", "Z"].eraseIdx 1 ∧
        (spinComplete (spinRequest ⟨"X\nY\nZ", ["X", "Y", "Z"], [], true, true,
            none, false, 0, 0⟩ 1 6).1 p).items.length + 1 = 3) :=
  spin_complete_effects
    ⟨"X\nY\nZ", ["X", "Y", "Z"], [], true, true, none, false, 0, 0⟩ 1 6
    (by decide) rfl (by decide)

/-- C3: a spin request while a spin is already in flight returns the state
unchanged and schedules no completion. -/
theorem spin_while_spinning_noop (s : SpinnerState) (idx extraSpins : ℕ)
    (h : s.isSpinning = true) :
    spinRequest s idx extraSpins = (s, none) := by
  rw [spinRequest, if_pos (Or.inr h)]

/-- Witness for C3 at a concrete spinning state. -/
theorem spin_while_spinning_noop_witness :
    spinRequest ⟨"a", ["a"], [], false, true, none, true, 0, 0⟩ 0 6 =
      (⟨"a", ["a"], [], false, true, none, true, 0, 0⟩, none) :=
  spin_while_spinning_noop ⟨"a", ["a"], [], false, true, none, true, 0, 0⟩ 0 6
    rfl

/-- C6: applying a raw text whose derived list is empty is a strict no-op on
the whole state, and a spin request over an empty pool is a strict no-op that
schedules nothing. -/
theorem empty_apply_empty_spin_noop (s : SpinnerState) (idx extraSpins : ℕ) :
    (deriveList s.rawList = [] → applyList s = s) ∧
    (s.items = [] → spinRequest s idx extraSpins = (s, none)) := by
  constructor
  · intro h
    rw [applyList]
    simp [h]
  · intro h
    rw [spinRequest, if_pos (Or.inl (by rw [h]; rfl))]

/-- Witness for C6 at a state with blank raw text and an empty pool. -/
theorem empty_apply_empty_spin_noop_witness :
    applyList ⟨"", [], ["old"], false, true, none, false, 5, 2⟩ =
      ⟨"", [], ["old"], false, true, none, false, 5, 2⟩ ∧
    spinRequest ⟨"", [], ["old"], false, true, none, false, 5, 2⟩ 0 6 =
      (⟨"", [], ["old"], false, true, none, false, 5, 2⟩, none) := by
  have h := empty_apply_empty_spin_noop
    ⟨"", [], ["old"], false, true, none, false, 5, 2⟩ 0 6
  exact ⟨h.1 (by decide), h.2 rfl⟩

/-! ## Reset, apply, preset -/

/-- C4 counterexample: apply the raw text "old", then edit the textarea to
"new" without applying, then reset.  The pool becomes the derivation of
"new", not of the last text that was applied.  `resetList` reads the live
`rawList`, not a snapshot taken at apply time. -/
theorem resetList_not_from_last_applied :
    (resetList (setRawList (applyList (setRawList
        ⟨"x", ["x"], [], false, true, none, false, 0, 0⟩ "old")) "new")).items ≠
      deriveList "old" := by decide

/-- C4 amended: reset re-derives the pool from the raw text currently in the
textarea (which coincides with the last applied or preset text only as long
as the text has not been edited since), and clears the history, the rotation
and the spin counter. -/
theorem resetList_spec (s : SpinnerState) :
    (resetList s).items = deriveList s.rawList ∧
    (resetList s).history = [] ∧
    (resetList s).rotation = 0 ∧
    (resetList s).spinCount = 0 :=
  ⟨rfl, rfl, rfl, rfl⟩

/-- C5 counterexample: a non-empty apply issued while a spin is in flight
leaves the spinning flag set; `applyList` never writes `isSpinning`, so it
does not set the spin state to Idle. -/
theorem applyList_leaves_spinning :
    deriveList "a" ≠ [] ∧
    (applyList ⟨"a", ["b"], [], false, true, none, true, 0, 0⟩).isSpinning =
      true := by decide

/-- C5 amended: for every raw input whose derived list is non-empty, apply
replaces the pool with that derived list, clears the history, resets the
rotation and the spin counter to 0, and leaves the spin state unchanged
(hence Idle whenever it was Idle). -/
theorem applyList_spec (s : SpinnerState) (h : deriveList s.rawList ≠ []) :
    (applyList s).items = deriveList s.rawList ∧
    (applyList s).history = [] ∧
    (applyList s).rotation = 0 ∧
    (applyList s).spinCount = 0 ∧
    (applyList s).isSpinning = s.isSpinning := by
  have h0 : 0 < (deriveList s.rawList).length := by
    cases hd : deriveList s.rawList with
    | nil => exact absurd hd h
    | cons a l => simp
  simp [applyList, h0]

/-- Witness for C5 (amended) at a concrete two-line raw text. -/
theorem applyList_spec_witness :
    (applyList ⟨"a\nb", ["z"], ["h"], false, true, none, false, 7, 3⟩).items =
      deriveList "a\nb" ∧
    (applyList ⟨"a\nb", ["z"], ["h"], false, true, none, false, 7, 3⟩).history =
      [] ∧
    (applyList ⟨"a\nb", ["z"], ["h"], false, true, none, false, 7, 3⟩).rotation =
      0 ∧
    (applyList ⟨"a\nb", ["z"], ["h"], false, true, none, false, 7, 3⟩).spinCount =
      0 ∧
    (applyList ⟨"a\nb", ["z"], ["h"], false, true, none, false, 7, 3⟩).isSpinning =
      false :=
  applyList_spec ⟨"a\nb", ["z"], ["h"], false, true, none, false, 7, 3⟩
    (by decide)

/-- C7 counterexample: reset drops the cumulative rotation from 720 back to
0, so the rotation is not monotonically non-decreasing across every
operation of the session. -/
theorem rotation_not_monotone_across_reset :
    (resetList ⟨"a", ["a"], [], false, true, none, false, 720, 3⟩).rotation <
      (⟨"a", ["a"], [], false, true, none, false, 720, 3⟩ :
        SpinnerState).rotation := by
  norm_num [resetList]

/-- C7 amended: the cumulative rotation never decreases across spin requests
(accepted or rejected) and never changes at spin completion, so successive
spin targets are non-decreasing; but apply (when accepted), reset and the
classic preset all reset it to 0. -/
theorem rotation_monotone_under_spins (s : SpinnerState)
    (idx extraSpins : ℕ) (p : PendingSpin) (hextra : 6 ≤ extraSpins) :
    s.rotation ≤ (spinRequest s idx extraSpins).1.rotation ∧
    (spinComplete s p).rotation = s.rotation ∧
    (resetList s).rotation = 0 ∧
    (setClassicBingo s).rotation = 0 ∧
    (deriveList s.rawList ≠ [] → (applyList s).rotation = 0) := by
  refine ⟨?_, ?_, rfl, rfl, fun h => ((applyList_spec s h).2.2.1)⟩
  · rw [spinRequest]
    split
    · exact le_refl _
    · have hd := deltaToZero_nonneg s.items idx s.rotation
      have hex : (6 : ℚ) ≤ (extraSpins : ℚ) := by exact_mod_cast hextra
      show s.rotation ≤ spinTarget s.items idx extraSpins s.rotation
      rw [spinTarget]
      nlinarith
  · rw [spinComplete]
    split <;> rfl

/-- Witness for C7 (amended) at a concrete Idle state. -/
theorem rotation_monotone_under_spins_witness :
    (⟨"a", ["a"], [], false, true, none, false, 0, 0⟩ :
        SpinnerState).rotation ≤
      (spinRequest ⟨"a", ["a"], [], false, true, none, false, 0, 0⟩
        0 6).1.rotation ∧
    (spinComplete ⟨"a", ["a"], [], false, true, none, false, 0, 0⟩
        ⟨0, ["a"], false⟩).rotation =
      (⟨"a", ["a"], [], false, true, none, false, 0, 0⟩ :
        SpinnerState).rotation ∧
    (resetList ⟨"a", ["a"], [], false, true, none, false, 0, 0⟩).rotation = 0 ∧
    (setClassicBingo ⟨"a", ["a"], [], false, true, none, false, 0, 0⟩).rotation =
      0 ∧
    (applyList ⟨"a", ["a"], [], false, true, none, false, 0, 0⟩).rotation = 0 := by
  have h := rotation_monotone_under_spins
    ⟨"a", ["a"], [], false, true, none, false, 0, 0⟩ 0 6 ⟨0, ["a"], false⟩
    (by decide)
  exact ⟨h.1, h.2.1, h.2.2.1, h.2.2.2.1, h.2.2.2.2 (by decide)⟩

/-! ## Slice angle -/

/-- Following the spec's words for comparison with the source: `sliceAngle()`
returns `360 / length`, or a sentinel "undefined" (here `none`) when the
length is 0. -/
def sliceAngleSpec (items : List String) : Option ℚ :=
  if 0 < items.length then some (360 / (items.length : ℚ)) else none

/-- C8 counterexample: on an empty pool, the source's slice angle (line 57)
is the number 0, not an "undefined" sentinel; the spec-side description
would give `none`. -/
theorem sliceAngle_empty_is_zero :
    sliceAngle [] = 0 ∧ sliceAngleSpec [] = none := ⟨rfl, rfl⟩

/-- C8 amended: the slice angle is `360 / length` when the pool is non-empty
and the number 0 (not an undefined sentinel) when the pool is empty. -/
theorem sliceAngle_spec_amended :
    (∀ items : List String, 0 < items.length →
      sliceAngle items = 360 / (items.length : ℚ)) ∧
    sliceAngle [] = 0 :=
  ⟨fun items h => by rw [sliceAngle, if_pos h], rfl⟩

/-- Witness for C8 (amended) on a two-item pool. -/
theorem sliceAngle_spec_amended_witness :
    sliceAngle ["A", "B"] = 180 ∧ sliceAngle [] = 0 := by
  have h := sliceAngle_spec_amended
  refine ⟨?_, h.2⟩
  rw [h.1 ["A", "B"] (by decide)]
  norm_num

/-! ## The classic-bingo preset -/

/-- Following the spec's words: one 15-item band, the letter concatenated
with the numbers `lo, lo + 1, …, lo + 14`. -/
def specBingoBand (letter : String) (lo : ℕ) : List String :=
  (List.range' lo 15).map (fun n => letter ++ toString n)

/-- C9: the classic-bingo enumeration has exactly 75 items, no duplicates,
and is the concatenation, in band order, of the five 15-item bands
B×[1,15], I×[16,30], N×[31,45], G×[46,60], O×[61,75], each item being the
band letter immediately followed by the number. -/
theorem classicBingo_preset_correct :
    classicBingoList.length = 75 ∧
    classicBingoList.Nodup ∧
    classicBingoList =
      specBingoBand "B" 1 ++ specBingoBand "I" 16 ++ specBingoBand "N" 31 ++
        specBingoBand "G" 46 ++ specBingoBand "O" 61 ∧
    (∀ letter lo, (specBingoBand letter lo).length = 15) := by
  refine ⟨by decide, by decide, by decide, ?_⟩
  intro letter lo
  simp [specBingoBand]

set_option maxRecDepth 100000 in
/-- C10: the preset stores the newline-joined labels as the raw text, so a
reset immediately after the preset re-derives exactly the preset pool; in
fact it is the identity on the whole state. -/
theorem classicBingo_then_reset_identity (s : SpinnerState) :
    (setClassicBingo s).rawList = String.intercalate "\n" classicBingoList ∧
    (setClassicBingo s).items = classicBingoList ∧
    resetList (setClassicBingo s) = setClassicBingo s := by
  refine ⟨rfl, rfl, ?_⟩
  have hd : deriveList (String.intercalate "\n" classicBingoList) =
      classicBingoList := by decide
  simp [resetList, setClassicBingo, hd]

end BingoSpinner
